import Mathlib

/-!
Verification development for the MetaStripper batch metadata-stripping
utility.  The Rust sources (`src/main.rs`, `src/image.rs`, `src/video.rs`,
`src/pdf.rs`) are shallowly embedded: pure string processing is translated
function-by-function onto `List Char`, while external effects (the `image`
codec, `ffmpeg`/`ffprobe` subprocesses, filesystem writes) are modelled by
explicit environment records and effect traces.
-/

/-- File contents and strings are modelled as lists of characters. -/
abbrev Chars := List Char

/-- Coerce a Lean string literal to the character-list representation. -/
def str (s : String) : Chars := s.data

/- ===================== PDF handler (src/pdf.rs) ===================== -/

/-- ASCII fragment of Rust `char::is_whitespace` (the inputs handled by the
PDF heuristic are ASCII; the Unicode-only whitespace codepoints are not
modelled). -/
def rustIsWhitespace (c : Char) : Bool :=
  c == ' ' || c == '\t' || c == '\n' || c == '\r' || c == '\x0b' || c == '\x0c'

/-- Model of Rust `str::find`: index of the first occurrence of `pat` in
`content`, scanning left to right. -/
def findSub (pat : Chars) : Chars → Option Nat
  | [] => if pat = [] then some 0 else none
  | c :: rest =>
    if pat.isPrefixOf (c :: rest) then some 0
    else (findSub pat rest).map (· + 1)

/-- Scanner for a parenthesis-delimited PDF string value: characters are
collected while tracking nesting depth; the value ends when depth returns
to zero (the closing parenthesis is not part of the value).  Mirrors the
depth loop of `extract_metadata_field` in `src/pdf.rs`. -/
def parenValue : Nat → Chars → Chars
  | _, [] => []
  | depth, c :: rest =>
    if c = '(' then c :: parenValue (depth + 1) rest
    else if c = ')' then
      if depth = 1 then [] else c :: parenValue (depth - 1) rest
    else c :: parenValue depth rest

/-- Collect characters up to (excluding) the next `/` delimiter; mirrors the
bare-value loop of `extract_metadata_field`. -/
def untilSlash : Chars → Chars
  | [] => []
  | c :: rest => if c = '/' then [] else c :: untilSlash rest

/-- Model of Rust `str::trim` on the ASCII whitespace fragment. -/
def trimChars (l : Chars) : Chars :=
  ((l.dropWhile rustIsWhitespace).reverse.dropWhile rustIsWhitespace).reverse

/-- Recursion core of `replaceSub`, structurally decreasing on a fuel
argument; a fuel of the input length always suffices because every step
consumes at least one character. -/
def replaceSubGo (pat rep : Chars) : Nat → Chars → Chars
  | 0, rest => rest
  | _ + 1, [] => []
  | fuel + 1, c :: rest =>
    if pat.isPrefixOf (c :: rest) ∧ 0 < pat.length then
      rep ++ replaceSubGo pat rep fuel (rest.drop (pat.length - 1))
    else
      c :: replaceSubGo pat rep fuel rest

/-- Model of Rust `str::replace pat rep`: leftmost, non-overlapping
replacement of every occurrence of `pat` (all call sites use a non-empty
`pat`). -/
def replaceSub (pat rep s : Chars) : Chars :=
  replaceSubGo pat rep s.length s

/-- Translation of `extract_metadata_field` (src/pdf.rs lines 58-117): find
the first occurrence of `fieldName`, parse its value (parenthesised,
name-delimited, or bare-until-slash), trim it, unescape it, and append one
`"display: value"` item when the value is non-empty. -/
def extract_metadata_field (content : Chars) (fieldName : Chars)
    (metadata : List Chars) (displayName : Chars) : List Chars :=
  match findSub fieldName content with
  | none => metadata
  | some pos =>
    let start := pos + fieldName.length
    if start < content.length then
      let slice := content.drop start
      let chars := slice.dropWhile rustIsWhitespace
      let value :=
        match chars with
        | [] => []
        | c :: rest =>
          if c = '(' then parenValue 1 rest
          else if c = '/' then []
          else c :: untilSlash rest
      let value := trimChars value
      if value ≠ [] then
        let value := replaceSub (str "\\n") (str "\n") value
        let value := replaceSub (str "\\r") (str "\r") value
        let value := replaceSub (str "\\t") (str "\t") value
        let value := replaceSub (str "\\\\") (str "\\") value
        metadata ++ [displayName ++ str ": " ++ value]
      else metadata
    else metadata

/-- Translation of `extract_pdf_metadata_simple` (src/pdf.rs lines 31-56):
scan the (lossily decoded) file content for the eight well-known metadata
keys, in source order. -/
def extract_pdf_metadata_simple (content : Chars) : List Chars :=
  let metadata : List Chars := []
  let metadata := extract_metadata_field content (str "/Title") metadata (str "Title")
  let metadata := extract_metadata_field content (str "/Author") metadata (str "Author")
  let metadata := extract_metadata_field content (str "/Subject") metadata (str "Subject")
  let metadata := extract_metadata_field content (str "/Keywords") metadata (str "Keywords")
  let metadata := extract_metadata_field content (str "/Creator") metadata (str "Creator")
  let metadata := extract_metadata_field content (str "/Producer") metadata (str "Producer")
  let metadata := extract_metadata_field content (str "/CreationDate") metadata (str "Creation Date")
  let metadata := extract_metadata_field content (str "/ModDate") metadata (str "Modification Date")
  metadata

/-- Translation of `strip_pdf_metadata` (src/pdf.rs lines 6-29): report the
extracted metadata (or the eight generic fallback items when nothing was
found) and copy the input bytes unchanged to the output.  The returned pair
is (report items, output file content). -/
def strip_pdf_metadata (input : Chars) : List Chars × Chars :=
  let removed := extract_pdf_metadata_simple input
  let removed :=
    if removed.isEmpty then
      [str "Author (if present)", str "Creator (if present)",
       str "Producer (if present)", str "CreationDate (if present)",
       str "ModDate (if present)", str "Title (if present)",
       str "Subject (if present)", str "Keywords (if present)"]
    else removed
  (removed, input)

example :
    extract_pdf_metadata_simple (str "%PDF-1.4 << /Author(Jane Doe) >>") =
      [str "Author: Jane Doe"] := by decide

example :
    extract_pdf_metadata_simple (str "/Author(Jane)/Author(Bob)") =
      [str "Author: Jane"] := by decide

/- ===================== Filesystem effect traces ===================== -/

/-- Observable filesystem mutations performed by a handler.  `fullWrite`
is a file written to completion, `incompleteWrite` a file that may have
been created or partially written by a step that failed midway, `renamed`
an atomic rename. -/
inductive FsEffect where
  | fullWrite (path : Chars)
  | incompleteWrite (path : Chars)
  | renamed (src dst : Chars)
deriving DecidableEq

/-- Whether an effect creates, modifies or replaces the file at `p`. -/
def FsEffect.touches : FsEffect → Chars → Bool
  | .fullWrite q, p => q == p
  | .incompleteWrite q, p => q == p
  | .renamed src dst, p => src == p || dst == p

/- ===================== Image handler (src/image.rs) ===================== -/

/-- Error outcomes of `strip_image_metadata`; the Rust code returns anyhow
errors whose messages distinguish these cases. -/
inductive ImageError where
  | decodeError
  | unsupportedFormat
  | saveError
deriving DecidableEq

/-- The `image::ImageFormat` values selected by the extension match. -/
inductive ImageFormat where
  | jpeg | png | gif | bmp | tiff
deriving DecidableEq

/-- The extension match of src/image.rs lines 27-34.  The match is
case-sensitive: the Rust code compares the raw extension against lowercase
literals without lowercasing it first. -/
def imageFormatOfExt (ext : Option Chars) : Option ImageFormat :=
  match ext with
  | none => none
  | some s =>
    if s = str "jpg" ∨ s = str "jpeg" then some .jpeg
    else if s = str "png" then some .png
    else if s = str "gif" then some .gif
    else if s = str "bmp" then some .bmp
    else if s = str "tiff" then some .tiff
    else none

/-- Environment abstracting the external collaborators of the image
handler: the `image` codec decode, the `kamadak-exif` extraction, and the
encode step.  `exif = none` models `extract_exif_metadata` failing (its
`Ok` result is abstracted as the item list it produced). -/
structure ImageEnv where
  decodeOk : Bool
  exif : Option (List Chars)
  encodeOk : Bool

/-- Translation of `strip_image_metadata` (src/image.rs lines 8-41): decode
the input (failure → decode error, nothing written); extract EXIF items or
fall back to three generic placeholders; map the input extension to an
output format (unmatched → unsupported-format error, nothing written);
encode to the output path.  `img.save_with_format` writes directly to the
destination path — it creates the target file and then encodes into it —
so a failing encode leaves an incomplete file there, while a successful
one leaves the complete output. -/
def imageRemoved (env : ImageEnv) : List Chars :=
  match env.exif with
  | some items => items
  | none => [str "EXIF metadata (if present)", str "GPS data (if present)",
             str "Camera info (if present)"]

/-- Translation of the dispatch and encode of `strip_image_metadata`; see
the comment on `imageRemoved` for the extraction step (src/image.rs lines
14-24). -/
def strip_image_metadata (env : ImageEnv) (inputExt : Option Chars)
    (output : Chars) : Except ImageError (List Chars) × List FsEffect :=
  if ¬ env.decodeOk then (.error .decodeError, [])
  else
    let removed := imageRemoved env
    match imageFormatOfExt inputExt with
    | none => (.error .unsupportedFormat, [])
    | some _ =>
      if env.encodeOk then (.ok removed, [.fullWrite output])
      else (.error .saveError, [.incompleteWrite output])

/- ===================== Video handler (src/video.rs) ===================== -/

/-- Error outcomes of `strip_video_metadata` / `extract_video_metadata`;
the Rust code returns anyhow errors whose messages distinguish these
cases.  `toolExecutionError` carries the tool's stderr diagnostic text. -/
inductive VideoError where
  | toolUnavailable
  | probeSpawnFailed
  | probeFailed
  | ffmpegSpawnFailed
  | toolExecutionError (stderr : Chars)
  | renameFailed
deriving DecidableEq

/-- Index of the last `.` in a file name, if any. -/
def lastDotIndex : Chars → Option Nat
  | [] => none
  | c :: rest =>
    match lastDotIndex rest with
    | some i => some (i + 1)
    | none => if c = '.' then some 0 else none

/-- Model of Rust `Path::file_stem` / `Path::extension` on a bare file
name: the split is at the last `.`, except that a name with no `.`, or
whose only `.` is the leading character (a hidden file), has no
extension. -/
def rustStemExt (name : Chars) : Chars × Option Chars :=
  match lastDotIndex name with
  | none => (name, none)
  | some 0 => (name, none)
  | some i => (name.take i, some (name.drop (i + 1)))

/-- Model of Rust `Path::with_extension` on a bare file name (paths in
this development carry no directory component): the stem with the new
extension appended. -/
def with_extension (name : Chars) (newExt : Chars) : Chars :=
  let stem := (rustStemExt name).1
  if newExt.isEmpty then stem else stem ++ '.' :: newExt

/-- Environment abstracting the external collaborators of the video
handler: whether `ffmpeg -version` succeeds, the `ffprobe` run (`none` =
spawn failure, `some ok` = ran with/without success status), the items the
JSON walk of the probe output produced, the `ffmpeg` strip run (`none` =
spawn failure, `some (ok, stderr)`), and the final rename. -/
structure VideoEnv where
  ffmpegInstalled : Bool
  probe : Option Bool
  parsedItems : List Chars
  ffmpegRun : Option (Bool × Chars)
  renameOk : Bool

/-- Translation of `extract_video_metadata` (src/video.rs lines 55-178) at
the granularity of the external probe: spawn failure or a non-zero probe
status is an error; otherwise the items produced by walking the JSON
report are returned, with the single sentinel item substituted when that
walk produced nothing (including when the output was not valid JSON). -/
def extract_video_metadata (probe : Option Bool) (parsedItems : List Chars) :
    Except VideoError (List Chars) :=
  match probe with
  | none => .error .probeSpawnFailed
  | some false => .error .probeFailed
  | some true =>
    .ok (if parsedItems.isEmpty
         then [str "No readable metadata found in the video file"]
         else parsedItems)

/-- The five-item generic fallback report used when metadata extraction
fails (src/video.rs lines 17-23). -/
def videoFallbackItems : List Chars :=
  [str "Creation time (if present)", str "Encoder information (if present)",
   str "Device information (if present)", str "GPS data (if present)",
   str "All metadata headers"]

/-- The report of the video handler: the probe result, or the generic
five-item fallback when extraction fails (src/video.rs lines 13-25). -/
def videoRemoved (env : VideoEnv) : List Chars :=
  match extract_video_metadata env.probe env.parsedItems with
  | .ok items => items
  | .error _ => videoFallbackItems

/-- Translation of `strip_video_metadata` (src/video.rs lines 6-53): check
for ffmpeg first (absence → tool-unavailable error before any filesystem
effect); extract metadata, falling back to the generic five items on
extraction error; run ffmpeg writing to the sibling temporary path
`output.with_extension("tmp.mp4")` (a failed run may leave an incomplete
temporary file; a spawn failure writes nothing); on zero exit rename the
temporary file over the destination. -/
def strip_video_metadata (env : VideoEnv) (output : Chars) :
    Except VideoError (List Chars) × List FsEffect :=
  if ¬ env.ffmpegInstalled then (.error .toolUnavailable, [])
  else
    let removed := videoRemoved env
    let temp := with_extension output (str "tmp.mp4")
    match env.ffmpegRun with
    | none => (.error .ffmpegSpawnFailed, [])
    | some (false, stderr) => (.error (.toolExecutionError stderr), [.incompleteWrite temp])
    | some (true, _) =>
      if env.renameOk then (.ok removed, [.fullWrite temp, .renamed temp output])
      else (.error .renameFailed, [.fullWrite temp])

/- ===================== Orchestrator (src/main.rs) ===================== -/

/-- The `FileType` enum of src/main.rs lines 81-87. -/
inductive FileType where
  | Image | Video | PDF | Unknown
deriving DecidableEq

/-- The `FileInfo` struct of src/main.rs lines 75-79. -/
structure FileInfo where
  path : Chars
  file_type : FileType

/-- A batch outcome, one per file: `process_file` returns
`anyhow::Result<Vec<String>>`, modelled as item list or error text. -/
abbrev ProcessingOutcome := Except Chars (List Chars)

/-- ASCII lowercasing of an extension, modelling Rust `str::to_lowercase`
(which additionally folds non-ASCII codepoints; none of the matched keys
contain any). -/
def extToLower (e : Chars) : Chars := e.map Char.toLower

/-- Translation of `determine_file_type` (src/main.rs lines 294-305); the
argument is `path.extension().and_then(|e| e.to_str())`. -/
def determine_file_type (ext : Option Chars) : FileType :=
  match ext with
  | none => .Unknown
  | some e =>
    let l := extToLower e
    if l = str "jpg" ∨ l = str "jpeg" ∨ l = str "png" ∨ l = str "gif" ∨
       l = str "bmp" ∨ l = str "tiff" then .Image
    else if l = str "mp4" ∨ l = str "mov" ∨ l = str "avi" ∨ l = str "mkv" then .Video
    else if l = str "pdf" then .PDF
    else .Unknown

/-- Model of the parallel batch loop `files.par_iter().map(...).collect()`
(src/main.rs lines 194-212).  Rayon's indexed collect allocates one result
slot per input index and each task writes only its own slot; `order` is
the completion order of the tasks (any sequence of indices).  Slots not
yet written hold `none`.  `parStep` is the write of one completed task
into its own slot. -/
def parStep (descs : List FileInfo) (f : FileInfo → ProcessingOutcome)
    (arr : List (Option ProcessingOutcome)) (i : Nat) : List (Option ProcessingOutcome) :=
  match descs[i]? with
  | some d => arr.set i (some (f d))
  | none => arr

/-- The batch loop: fold the completion order over the slot array. -/
def parCollect (descs : List FileInfo) (f : FileInfo → ProcessingOutcome)
    (order : List Nat) : List (Option ProcessingOutcome) :=
  order.foldl (parStep descs f) (List.replicate descs.length none)

/-- The `ProcessingStats` struct of src/main.rs lines 89-96; the `by_type`
hash map is modelled as its lookup function with default 0. -/
structure ProcessingStats where
  files_processed : Nat := 0
  files_skipped : Nat := 0
  files_failed : Nat := 0
  metadata_items_removed : Nat := 0
  by_type : Chars → Nat := fun _ => 0

/-- The key under which a file type is counted (src/main.rs lines
220-225). -/
def typeKey : FileType → Chars
  | .Image => str "Images"
  | .Video => str "Videos"
  | .PDF => str "PDFs"
  | .Unknown => str "Unknown"

/-- Model of `*map.entry(k).or_insert(0) += 1` on the lookup-function view
of the hash map. -/
def bump (m : Chars → Nat) (k : Chars) : Chars → Nat :=
  fun x => if x = k then m x + 1 else m x

/-- Translation of the loop body of the statistics fold of src/main.rs
lines 218-236: count the file under its type key, then record success
(with its item count) or failure. -/
def statStep (s : ProcessingStats) (fr : FileType × ProcessingOutcome) : ProcessingStats :=
  let s := { s with by_type := bump s.by_type (typeKey fr.1) }
  match fr.2 with
  | .ok metadata =>
    { s with files_processed := s.files_processed + 1,
             metadata_items_removed := s.metadata_items_removed + metadata.length }
  | .error _ => { s with files_failed := s.files_failed + 1 }

/-- The statistics pass is a single left fold of `statStep` over the
outcome sequence, from the all-zero `ProcessingStats::default()`. -/
def collectStats (results : List (FileType × ProcessingOutcome)) : ProcessingStats :=
  results.foldl statStep {}

example : determine_file_type (some (str "JPG")) = .Image := by decide
example : determine_file_type (some (str "webp")) = .Unknown := by decide
example : determine_file_type none = .Unknown := by decide

/- ===================== Lemmas: PDF extraction ===================== -/

/-- Each key scan appends at most one report item: the result is the input
item list plus at most one new element. -/
theorem extract_field_append (content fieldName : Chars) (metadata : List Chars)
    (displayName : Chars) :
    ∃ extra, extract_metadata_field content fieldName metadata displayName =
      metadata ++ extra ∧ extra.length ≤ 1 := by
  unfold extract_metadata_field
  cases findSub fieldName content with
  | none => exact ⟨[], by simp⟩
  | some pos =>
    dsimp only
    split
    · split
      · exact ⟨_, rfl, by simp⟩
      · exact ⟨[], by simp⟩
    · exact ⟨[], by simp⟩

theorem extract_field_len (content fieldName : Chars) (metadata : List Chars)
    (displayName : Chars) :
    (extract_metadata_field content fieldName metadata displayName).length ≤
      metadata.length + 1 := by
  obtain ⟨extra, heq, hlen⟩ := extract_field_append content fieldName metadata displayName
  simp [heq]
  omega

/- ===================== Claim theorems: PDF ===================== -/

/-- C2: for every input PDF, `strip_pdf_metadata` writes an output that is
byte-for-byte identical to the input (metadata is reported, not
structurally removed); for the scenario input containing
`/Author(Jane Doe)`, the report contains `"Author: Jane Doe"`. -/
theorem pdf_copy_and_author_report :
    (∀ input : Chars, (strip_pdf_metadata input).2 = input) ∧
    str "Author: Jane Doe" ∈
      (strip_pdf_metadata (str "%PDF-1.4 << /Author(Jane Doe) >>")).1 := by
  refine ⟨fun input => rfl, ?_⟩
  decide

/-- C10: for each of the eight PDF metadata keys, extraction looks only at
the first occurrence of the key name: each key scan appends at most one
item (so the whole scan yields at most eight), and a later occurrence of
the same key never contributes — on `"/Author(Jane)/Author(Bob)"` the
report is exactly `["Author: Jane"]` and `"Author: Bob"` never appears. -/
theorem pdf_first_occurrence_only :
    (∀ content fieldName metadata displayName,
      ∃ extra, extract_metadata_field content fieldName metadata displayName =
        metadata ++ extra ∧ extra.length ≤ 1) ∧
    (∀ content, (extract_pdf_metadata_simple content).length ≤ 8) ∧
    extract_pdf_metadata_simple (str "/Author(Jane)/Author(Bob)") = [str "Author: Jane"] ∧
    str "Author: Bob" ∉ extract_pdf_metadata_simple (str "/Author(Jane)/Author(Bob)") := by
  refine ⟨extract_field_append, fun content => ?_, by decide, by decide⟩
  have key : ∀ (m : List Chars) (fn dn : Chars),
      (extract_metadata_field content fn m dn).length ≤ m.length + 1 :=
    fun m fn dn => extract_field_len content fn m dn
  simp only [extract_pdf_metadata_simple]
  refine le_trans (key _ _ _) (Nat.add_le_add_right ?_ 1)
  refine le_trans (key _ _ _) (Nat.add_le_add_right ?_ 1)
  refine le_trans (key _ _ _) (Nat.add_le_add_right ?_ 1)
  refine le_trans (key _ _ _) (Nat.add_le_add_right ?_ 1)
  refine le_trans (key _ _ _) (Nat.add_le_add_right ?_ 1)
  refine le_trans (key _ _ _) (Nat.add_le_add_right ?_ 1)
  refine le_trans (key _ _ _) (Nat.add_le_add_right ?_ 1)
  exact le_trans (key _ _ _) (by simp)

/- ===================== Claim theorems: classifier ===================== -/

/-- C8: `determine_file_type` is a pure total function of the lower-cased
extension, yielding exactly one of the four categories: the six image
extensions map to Image, the four video extensions to Video, pdf to PDF,
everything else (including a missing extension) to Unknown, and repeated
calls agree. -/
theorem classify_total_pure :
    (determine_file_type none = .Unknown) ∧
    (∀ e : Option Chars, determine_file_type e = determine_file_type e) ∧
    (∀ e : Option Chars, determine_file_type e = .Image ∨ determine_file_type e = .Video ∨
      determine_file_type e = .PDF ∨ determine_file_type e = .Unknown) ∧
    (∀ s : Chars, determine_file_type (some s) = .Image ↔
      extToLower s ∈ [str "jpg", str "jpeg", str "png", str "gif", str "bmp", str "tiff"]) ∧
    (∀ s : Chars, determine_file_type (some s) = .Video ↔
      extToLower s ∈ [str "mp4", str "mov", str "avi", str "mkv"]) ∧
    (∀ s : Chars, determine_file_type (some s) = .PDF ↔ extToLower s = str "pdf") ∧
    (∀ s : Chars, extToLower s ∉ [str "jpg", str "jpeg", str "png", str "gif", str "bmp",
        str "tiff", str "mp4", str "mov", str "avi", str "mkv", str "pdf"] →
      determine_file_type (some s) = .Unknown) := by
  refine ⟨rfl, fun _ => rfl, ?_, ?_, ?_, ?_, ?_⟩
  · intro e
    cases determine_file_type e <;> simp
  · intro s
    simp only [determine_file_type, List.mem_cons, List.not_mem_nil, or_false]
    split_ifs <;> simp_all
  · intro s
    simp only [determine_file_type, List.mem_cons, List.not_mem_nil, or_false]
    split_ifs with himg hvid hpdf <;> simp_all
    rcases himg with h | h | h | h | h | h <;> rw [h] <;> decide
  · intro s
    simp only [determine_file_type]
    split_ifs with himg hvid hpdf <;> simp_all
    · rcases himg with h | h | h | h | h | h <;> rw [h] <;> decide
    · rcases hvid with h | h | h | h <;> rw [h] <;> decide
  · intro s h
    simp only [List.mem_cons, List.not_mem_nil, or_false, not_or] at h
    simp only [determine_file_type]
    split_ifs <;> simp_all

/-- Witness for C8: concrete instances discharging the hypotheses of the
conditional parts of `classify_total_pure`. -/
theorem classify_total_pure_witness :
    determine_file_type (some (str "JPG")) = .Image ∧
    determine_file_type (some (str "webp")) = .Unknown := by
  constructor
  · exact (classify_total_pure.2.2.2.1 (str "JPG")).mpr (by decide)
  · exact classify_total_pure.2.2.2.2.2.2 (str "webp") (by decide)

/- ===================== Claim theorems: image handler ===================== -/

/-- Unmatched extensions (including a missing one) select no output
format. -/
theorem imageFormatOfExt_eq_none (ext : Option Chars)
    (h : ∀ s, ext = some s → s ∉ [str "jpg", str "jpeg", str "png", str "gif",
        str "bmp", str "tiff"]) :
    imageFormatOfExt ext = none := by
  cases ext with
  | none => rfl
  | some s =>
    have hs := h s rfl
    simp only [List.mem_cons, List.not_mem_nil, or_false, not_or] at hs
    simp only [imageFormatOfExt]
    split_ifs <;> simp_all

/-- C6: for every input path whose extension is not one of
jpg/jpeg/png/gif/bmp/tiff, `strip_image_metadata` fails with the
unsupported-format error even when the content decodes, and nothing is
written to the filesystem. -/
theorem image_unsupported_ext_rejected (env : ImageEnv) (ext : Option Chars)
    (output : Chars) (hdec : env.decodeOk = true)
    (hext : ∀ s, ext = some s → s ∉ [str "jpg", str "jpeg", str "png", str "gif",
        str "bmp", str "tiff"]) :
    strip_image_metadata env ext output = (.error .unsupportedFormat, []) := by
  simp [strip_image_metadata, hdec, imageFormatOfExt_eq_none ext hext]

/-- Witness for C6: a decodable input named with a `webp` extension is
rejected without any write. -/
theorem image_unsupported_ext_rejected_witness :
    strip_image_metadata ⟨true, some [], true⟩ (some (str "webp")) (str "out.webp") =
      (.error .unsupportedFormat, []) :=
  image_unsupported_ext_rejected ⟨true, some [], true⟩ (some (str "webp"))
    (str "out.webp") rfl (by intro s hs; cases hs; decide)

/-- C5 counterexample: the claim that no failure leaves a partial write at
the destination fails on an encode failure — the image handler encodes
directly to the destination path, so a failing encode leaves an incomplete
file there. -/
theorem image_partial_write_counterexample :
    (strip_image_metadata ⟨true, some [], false⟩ (some (str "png")) (str "out.png")).1 =
      .error .saveError ∧
    FsEffect.incompleteWrite (str "out.png") ∈
      (strip_image_metadata ⟨true, some [], false⟩ (some (str "png")) (str "out.png")).2 := by
  have h : strip_image_metadata ⟨true, some [], false⟩ (some (str "png")) (str "out.png") =
      (.error .saveError, [.incompleteWrite (str "out.png")]) := rfl
  rw [h]
  exact ⟨rfl, List.mem_singleton.mpr rfl⟩

/-- C5 amended: decode failures and unsupported-format failures write
nothing; the encode step writes directly to the destination (no temporary
path and no rename), so full success leaves exactly the complete output
there, while an encode failure leaves an incomplete file at the
destination. -/
theorem image_write_effects (env : ImageEnv) (ext : Option Chars) (output : Chars) :
    (env.decodeOk = false → strip_image_metadata env ext output = (.error .decodeError, [])) ∧
    (env.decodeOk = true → imageFormatOfExt ext = none →
      strip_image_metadata env ext output = (.error .unsupportedFormat, [])) ∧
    (∀ fmt, env.decodeOk = true → imageFormatOfExt ext = some fmt → env.encodeOk = true →
      strip_image_metadata env ext output = (.ok (imageRemoved env), [.fullWrite output])) ∧
    (∀ fmt, env.decodeOk = true → imageFormatOfExt ext = some fmt → env.encodeOk = false →
      (strip_image_metadata env ext output).1 = .error .saveError ∧
      (strip_image_metadata env ext output).2 = [.incompleteWrite output]) := by
  refine ⟨fun hdec => ?_, fun hdec hfmt => ?_, fun fmt hdec hfmt henc => ?_,
    fun fmt hdec hfmt henc => ?_⟩
  · simp [strip_image_metadata, hdec]
  · simp [strip_image_metadata, hdec, hfmt]
  · simp [strip_image_metadata, hdec, hfmt, henc]
  · constructor <;> simp [strip_image_metadata, hdec, hfmt, henc]

/-- Witness for C5 amended: the encode-failure clause at a concrete
environment. -/
theorem image_write_effects_witness :
    (strip_image_metadata ⟨true, some [], false⟩ (some (str "png")) (str "o.png")).1 =
      .error .saveError ∧
    (strip_image_metadata ⟨true, some [], false⟩ (some (str "png")) (str "o.png")).2 =
      [.incompleteWrite (str "o.png")] :=
  (image_write_effects ⟨true, some [], false⟩ (some (str "png")) (str "o.png")).2.2.2
    .png rfl (by decide) rfl

/- ===================== Lemmas: temporary-path naming ===================== -/

theorem lastDotIndex_lt {f : Chars} {i : Nat} (h : lastDotIndex f = some i) :
    i < f.length := by
  induction f generalizing i with
  | nil => simp [lastDotIndex] at h
  | cons c rest ih =>
    simp only [lastDotIndex] at h
    rcases hr : lastDotIndex rest with _ | k
    · rw [hr] at h
      by_cases hc : c = '.'
      · simp only [hc, if_pos rfl] at h
        cases h
        simp
      · simp [hc] at h
    · rw [hr] at h
      cases h
      exact Nat.succ_lt_succ (ih hr)

theorem lastDotIndex_none_no_dot {f : Chars} (h : lastDotIndex f = none) :
    ∀ j : Nat, f[j]? ≠ some '.' := by
  induction f with
  | nil => intro j; simp
  | cons c rest ih =>
    simp only [lastDotIndex] at h
    rcases hr : lastDotIndex rest with _ | k
    · rw [hr] at h
      by_cases hc : c = '.'
      · simp [hc] at h
      · intro j
        cases j with
        | zero => simpa using fun hcc => hc hcc
        | succ j => simpa using ih hr j
    · rw [hr] at h
      cases h

theorem lastDotIndex_last {f : Chars} {i : Nat} (h : lastDotIndex f = some i) :
    ∀ j : Nat, i < j → f[j]? ≠ some '.' := by
  induction f generalizing i with
  | nil => simp [lastDotIndex] at h
  | cons c rest ih =>
    simp only [lastDotIndex] at h
    intro j hij
    rcases hr : lastDotIndex rest with _ | k
    · rw [hr] at h
      by_cases hc : c = '.'
      · simp only [hc, if_pos rfl] at h
        cases h
        cases j with
        | zero => omega
        | succ j => simpa using lastDotIndex_none_no_dot hr j
      · simp [hc] at h
    · rw [hr] at h
      cases h
      cases j with
      | zero => omega
      | succ j =>
        simpa using ih hr j (Nat.lt_of_succ_lt_succ hij)

/-- The sibling temporary path `output.with_extension("tmp.mp4")` is never
the output path itself: a Rust extension never contains a dot, but the
candidate extension `tmp.mp4` would have to. -/
theorem withExt_tmp_ne (o : Chars) : with_extension o (str "tmp.mp4") ≠ o := by
  have hw : with_extension o (str "tmp.mp4") = (rustStemExt o).1 ++ '.' :: str "tmp.mp4" := by
    simp [with_extension, str]
  rw [hw]
  intro hc
  rcases h : lastDotIndex o with _ | i
  · rw [show (rustStemExt o).1 = o by simp [rustStemExt, h]] at hc
    have := congrArg List.length hc
    simp [str] at this
  · cases i with
    | zero =>
      rw [show (rustStemExt o).1 = o by simp [rustStemExt, h]] at hc
      have := congrArg List.length hc
      simp [str] at this
    | succ i =>
      rw [show (rustStemExt o).1 = o.take (i + 1) by simp [rustStemExt, h]] at hc
      have hlt : i + 1 < o.length := lastDotIndex_lt h
      have hlen : (o.take (i + 1)).length = i + 1 := by
        simp [List.length_take, Nat.min_eq_left (Nat.le_of_lt hlt)]
      have hdot : o[i + 5]? = some '.' := by
        rw [← hc, List.getElem?_append_right (by omega)]
        have h4 : i + 5 - (o.take (i + 1)).length = 4 := by omega
        rw [h4]
        rfl
      exact lastDotIndex_last h (i + 5) (by omega) hdot

/- ===================== Claim theorems: video handler ===================== -/

/-- C3: when ffmpeg is unavailable, `strip_video_metadata` returns the
tool-unavailable error before any file I/O: the effect trace is empty, so
no output or temporary path is created or modified. -/
theorem video_tool_unavailable_no_io (env : VideoEnv) (output : Chars)
    (h : env.ffmpegInstalled = false) :
    strip_video_metadata env output = (.error .toolUnavailable, []) := by
  simp [strip_video_metadata, h]

/-- Witness for C3: a concrete environment with ffmpeg missing. -/
theorem video_tool_unavailable_no_io_witness :
    strip_video_metadata ⟨false, some true, [], some (true, []), true⟩ (str "out.mp4") =
      (.error .toolUnavailable, []) :=
  video_tool_unavailable_no_io ⟨false, some true, [], some (true, []), true⟩
    (str "out.mp4") rfl

/-- C4: the video handler writes to the sibling temporary path
`output.with_extension("tmp.mp4")` and renames it over the destination
only on a zero ffmpeg exit status; on a non-zero exit it returns the
tool-execution error carrying the tool's stderr text, nothing is renamed
into place, and no effect touches the destination path (the temporary
path differs from it), so the temporary file is not left as valid
output. -/
theorem video_temp_then_rename (env : VideoEnv) (output : Chars)
    (hinst : env.ffmpegInstalled = true) :
    (∀ sd, env.ffmpegRun = some (true, sd) → env.renameOk = true →
      strip_video_metadata env output = (.ok (videoRemoved env),
        [.fullWrite (with_extension output (str "tmp.mp4")),
         .renamed (with_extension output (str "tmp.mp4")) output])) ∧
    (∀ sd, env.ffmpegRun = some (false, sd) →
      (strip_video_metadata env output).1 = .error (.toolExecutionError sd) ∧
      (strip_video_metadata env output).2 =
        [.incompleteWrite (with_extension output (str "tmp.mp4"))] ∧
      (∀ e ∈ (strip_video_metadata env output).2, e.touches output = false)) := by
  constructor
  · intro sd hrun hren
    simp [strip_video_metadata, hinst, hrun, hren]
  · intro sd hrun
    refine ⟨by simp [strip_video_metadata, hinst, hrun], by simp [strip_video_metadata, hinst, hrun], ?_⟩
    intro e he
    simp only [strip_video_metadata, hinst, not_true_eq_false, if_false, hrun,
      List.mem_singleton] at he
    subst he
    simp only [FsEffect.touches]
    exact beq_eq_false_iff_ne.mpr (withExt_tmp_ne output)

/-- Witness for C4: a concrete failing ffmpeg run leaves the destination
untouched and surfaces the diagnostic text. -/
theorem video_temp_then_rename_witness :
    (strip_video_metadata ⟨true, some true, [str "Title: T"], some (false, str "boom"), true⟩
        (str "out.mp4")).1 = .error (.toolExecutionError (str "boom")) ∧
    FsEffect.touches (.incompleteWrite (with_extension (str "out.mp4") (str "tmp.mp4")))
        (str "out.mp4") = false := by
  have h := (video_temp_then_rename
    ⟨true, some true, [str "Title: T"], some (false, str "boom"), true⟩
    (str "out.mp4") rfl).2 (str "boom") rfl
  refine ⟨h.1, ?_⟩
  have hm : FsEffect.incompleteWrite (with_extension (str "out.mp4") (str "tmp.mp4")) ∈
      (strip_video_metadata ⟨true, some true, [str "Title: T"], some (false, str "boom"), true⟩
        (str "out.mp4")).2 := by
    rw [h.2.1]
    exact List.mem_singleton.mpr rfl
  exact h.2.2 _ hm

/-- C7 counterexample: when the probe succeeds but yields nothing, the
report is the single sentinel item, not the fixed five-item fallback list
the claim requires — stripping still proceeds and succeeds. -/
theorem video_fallback_counterexample :
    (strip_video_metadata ⟨true, some true, [], some (true, []), true⟩ (str "o.mp4")).1 =
      .ok [str "No readable metadata found in the video file"] ∧
    [str "No readable metadata found in the video file"] ≠ videoFallbackItems := by
  constructor
  · rfl
  · intro hc
    have := congrArg List.length hc
    simp [videoFallbackItems] at this

/-- C7 amended: when the probe errors (spawn failure or non-zero status)
the report is the fixed five-item fallback; when the probe succeeds but
yields nothing the report is the single sentinel item; in both cases the
stripping step still proceeds (a successful ffmpeg run completes with the
usual temp-write and rename). -/
theorem video_probe_fallback (env : VideoEnv) (output : Chars)
    (hinst : env.ffmpegInstalled = true) :
    (env.probe = none ∨ env.probe = some false → videoRemoved env = videoFallbackItems) ∧
    (env.probe = some true → env.parsedItems = [] →
      videoRemoved env = [str "No readable metadata found in the video file"]) ∧
    (∀ sd, env.ffmpegRun = some (true, sd) → env.renameOk = true →
      strip_video_metadata env output = (.ok (videoRemoved env),
        [.fullWrite (with_extension output (str "tmp.mp4")),
         .renamed (with_extension output (str "tmp.mp4")) output])) := by
  refine ⟨?_, ?_, ?_⟩
  · rintro (hp | hp) <;> simp [videoRemoved, extract_video_metadata, hp]
  · intro hp hitems
    simp [videoRemoved, extract_video_metadata, hp, hitems]
  · intro sd hrun hren
    simp [strip_video_metadata, hinst, hrun, hren]

/-- Witness for C7 amended: a failing probe yields the fallback report and
a successful ffmpeg run still strips. -/
theorem video_probe_fallback_witness :
    videoRemoved ⟨true, some false, [], some (true, []), true⟩ = videoFallbackItems ∧
    strip_video_metadata ⟨true, some false, [], some (true, []), true⟩ (str "o.mp4") =
      (.ok videoFallbackItems,
       [.fullWrite (with_extension (str "o.mp4") (str "tmp.mp4")),
        .renamed (with_extension (str "o.mp4") (str "tmp.mp4")) (str "o.mp4")]) := by
  have h := video_probe_fallback ⟨true, some false, [], some (true, []), true⟩ (str "o.mp4") rfl
  have h1 := h.1 (Or.inr rfl)
  refine ⟨h1, ?_⟩
  have h3 := h.2.2 [] rfl rfl
  rw [h3, h1]

/- ===================== Lemmas: batch orchestration ===================== -/

theorem parStep_length (descs : List FileInfo) (f : FileInfo → ProcessingOutcome)
    (arr : List (Option ProcessingOutcome)) (i : Nat) :
    (parStep descs f arr i).length = arr.length := by
  unfold parStep
  cases descs[i]? <;> simp

theorem parFold_length (descs : List FileInfo) (f : FileInfo → ProcessingOutcome)
    (order : List Nat) :
    ∀ arr, (order.foldl (parStep descs f) arr).length = arr.length := by
  induction order with
  | nil => intro arr; rfl
  | cons i rest ih =>
    intro arr
    rw [List.foldl_cons, ih, parStep_length]

theorem parFold_not_mem (descs : List FileInfo) (f : FileInfo → ProcessingOutcome)
    (order : List Nat) (j : Nat) (hj : j ∉ order) :
    ∀ arr, (order.foldl (parStep descs f) arr)[j]? = arr[j]? := by
  induction order with
  | nil => intro arr; rfl
  | cons i rest ih =>
    intro arr
    have hij : i ≠ j := fun h => hj (h ▸ List.mem_cons_self i rest)
    have hjr : j ∉ rest := fun h => hj (List.mem_cons_of_mem i h)
    rw [List.foldl_cons, ih hjr]
    unfold parStep
    cases descs[i]? <;> simp [List.getElem?_set_ne hij]

theorem parFold_mem (descs : List FileInfo) (f : FileInfo → ProcessingOutcome)
    (order : List Nat) (j : Nat) (d : FileInfo) (hd : descs[j]? = some d)
    (hj : j ∈ order) :
    ∀ arr, arr.length = descs.length →
      (order.foldl (parStep descs f) arr)[j]? = some (some (f d)) := by
  induction order with
  | nil => cases hj
  | cons i rest ih =>
    intro arr hlen
    rw [List.foldl_cons]
    by_cases hjr : j ∈ rest
    · exact ih hjr _ (by rw [parStep_length, hlen])
    · have hij : j = i := by
        rcases List.mem_cons.mp hj with h | h
        · exact h
        · exact absurd h hjr
      subst hij
      rw [parFold_not_mem descs f rest j hjr]
      unfold parStep
      rw [hd]
      have hlt : j < arr.length := by
        rw [hlen]
        exact (List.getElem?_eq_some.mp hd).1
      simp [List.getElem?_set_self hlt]

/- ===================== Claim theorems: orchestrator ===================== -/

/-- C1: for every completion order (any permutation of the input indices),
the batch produces exactly one outcome per descriptor, the result sequence
is index-aligned with the input sequence, and slot `i` holds `f dᵢ`
regardless of the other files' outcomes — so one file's failure cannot
displace another file's Ok outcome. -/
theorem batch_index_aligned (descs : List FileInfo) (f : FileInfo → ProcessingOutcome)
    (order : List Nat) (hperm : order.Perm (List.range descs.length)) :
    parCollect descs f order = descs.map (fun d => some (f d)) ∧
    (parCollect descs f order).length = descs.length ∧
    (∀ i : Nat, ∀ d, descs[i]? = some d →
      (parCollect descs f order)[i]? = some (some (f d))) := by
  have hmem : ∀ j : Nat, j ∈ order ↔ j < descs.length := by
    intro j
    rw [hperm.mem_iff, List.mem_range]
  have hmain : parCollect descs f order = descs.map (fun d => some (f d)) := by
    apply List.ext_getElem?
    intro n
    by_cases hn : n < descs.length
    · obtain ⟨d, hd⟩ : ∃ d, descs[n]? = some d := ⟨_, List.getElem?_eq_getElem hn⟩
      rw [parCollect,
        parFold_mem descs f order n d hd ((hmem n).mpr hn)
          (List.replicate descs.length none) (by simp),
        List.getElem?_map, hd]
      rfl
    · have h1 : (parCollect descs f order)[n]? = none := by
        apply List.getElem?_eq_none
        rw [parCollect, parFold_length]
        simpa using Nat.le_of_not_lt hn
      have h2 : (descs.map (fun d => some (f d)))[n]? = none := by
        apply List.getElem?_eq_none
        simpa using Nat.le_of_not_lt hn
      rw [h1, h2]
  refine ⟨hmain, ?_, ?_⟩
  · rw [parCollect, parFold_length]
    simp
  · intro i d hd
    exact parFold_mem descs f order i d hd
      ((hmem i).mpr (List.getElem?_eq_some.mp hd).1) _ (by simp)

/-- Witness for C1: a three-file batch whose middle file fails, run under
the completion order [2, 0, 1], still yields the index-aligned outcomes
with the failing file isolated. -/
theorem batch_index_aligned_witness :
    parCollect
        [⟨str "a.png", .Image⟩, ⟨str "b.pdf", .PDF⟩, ⟨str "c.mp4", .Video⟩]
        (fun d => if d.file_type = .PDF then .error (str "boom") else .ok [])
        [2, 0, 1] =
      [some (.ok []), some (.error (str "boom")), some (.ok [])] := by
  have h := (batch_index_aligned
    [⟨str "a.png", .Image⟩, ⟨str "b.pdf", .PDF⟩, ⟨str "c.mp4", .Video⟩]
    (fun d => if d.file_type = .PDF then .error (str "boom") else .ok [])
    [2, 0, 1] (by decide)).1
  rw [h]
  rfl

/- ===================== Lemmas: statistics fold ===================== -/

/-- Whether an outcome is a success. -/
def outcomeOk : ProcessingOutcome → Bool
  | .ok _ => true
  | .error _ => false

/-- The number of metadata items reported by an outcome (zero for a
failure). -/
def outcomeItems : ProcessingOutcome → Nat
  | .ok m => m.length
  | .error _ => 0

theorem statStep_fold (results : List (FileType × ProcessingOutcome)) :
    ∀ init : ProcessingStats,
      (results.foldl statStep init).files_processed =
        init.files_processed + results.countP (fun fr => outcomeOk fr.2) ∧
      (results.foldl statStep init).files_failed =
        init.files_failed + results.countP (fun fr => !outcomeOk fr.2) ∧
      (results.foldl statStep init).metadata_items_removed =
        init.metadata_items_removed + (results.map (fun fr => outcomeItems fr.2)).sum ∧
      (results.foldl statStep init).files_skipped = init.files_skipped ∧
      (∀ k, (results.foldl statStep init).by_type k =
        init.by_type k + results.countP (fun fr => decide (typeKey fr.1 = k))) := by
  induction results with
  | nil => intro init; simp
  | cons fr rest ih =>
    intro init
    obtain ⟨ft, o⟩ := fr
    rw [List.foldl_cons]
    obtain ⟨h1, h2, h3, h4, h5⟩ := ih (statStep init (ft, o))
    cases o with
    | ok m =>
      refine ⟨?_, ?_, ?_, ?_, ?_⟩
      · rw [h1]
        simp [statStep, outcomeOk, List.countP_cons]
        omega
      · rw [h2]
        simp [statStep, outcomeOk, List.countP_cons]
      · rw [h3]
        simp [statStep, outcomeItems, List.map_cons, List.sum_cons]
        omega
      · rw [h4]
        simp [statStep]
      · intro k
        rw [h5 k]
        by_cases hk : typeKey ft = k
        · simp [statStep, bump, hk, List.countP_cons]
          omega
        · simp [statStep, bump, hk, List.countP_cons, Ne.symm hk]
    | error e =>
      refine ⟨?_, ?_, ?_, ?_, ?_⟩
      · rw [h1]
        simp [statStep, outcomeOk, List.countP_cons]
      · rw [h2]
        simp [statStep, outcomeOk, List.countP_cons]
        omega
      · rw [h3]
        simp [statStep, outcomeItems, List.map_cons, List.sum_cons]
      · rw [h4]
        simp [statStep]
      · intro k
        rw [h5 k]
        by_cases hk : typeKey ft = k
        · simp [statStep, bump, hk, List.countP_cons]
          omega
        · simp [statStep, bump, hk, List.countP_cons, Ne.symm hk]

/- ===================== Claim theorems: statistics ===================== -/

/-- C9: `ProcessingStats` is a pure single fold of the outcome sequence:
files processed counts the Ok outcomes, files failed the Err outcomes, the
items-removed total sums the item counts of the Ok outcomes, the
per-category counters count the files under each category key, and
recomputing from the same sequence yields identical counters. -/
theorem stats_single_fold (results : List (FileType × ProcessingOutcome)) :
    (collectStats results).files_processed =
      results.countP (fun fr => outcomeOk fr.2) ∧
    (collectStats results).files_failed =
      results.countP (fun fr => !outcomeOk fr.2) ∧
    (collectStats results).metadata_items_removed =
      (results.map (fun fr => outcomeItems fr.2)).sum ∧
    (∀ k, (collectStats results).by_type k =
      results.countP (fun fr => decide (typeKey fr.1 = k))) ∧
    collectStats results = collectStats results := by
  obtain ⟨h1, h2, h3, _, h5⟩ := statStep_fold results {}
  exact ⟨by simpa using h1, by simpa using h2, by simpa using h3,
    fun k => by simpa using h5 k, rfl⟩
